import Mathlib

/-!
Verification of the `pp` ndarray library (single header `ndarray-11.hpp`)
against its natural-language specification.

The embedding models:
* `Range` / `Range::parseRange` — the slice-expression record and its
  regex-based parser;
* `BaseVector::at` — negative-index-aware bounds-checked access;
* `Inner<Dtype, dim>` — the recursive rank-`dim` container, as nested lists;
* `Inner::slice` and `Inner::operator[]` (string slicing);
* the rank-lift converting constructor.

C++ machine arithmetic is modelled with `Int`/`Nat`: a conversion of a
(64-bit LP64) `std::size_t` from a signed value is taken modulo `2^64`,
and `std::stoi`'s `int` range check uses `[-2^31, 2^31 - 1]`.
Thrown C++ exceptions are modelled with `Except`.
-/

/-- The dynamic type of a thrown C++ standard exception, as far as the
library distinguishes them: `std::invalid_argument` or `std::out_of_range`. -/
inductive ExnKind : Type
  | invalidArgument
  | outOfRange
deriving DecidableEq, Repr

/-- A thrown C++ exception: its dynamic type together with its message
string (`what()`). -/
structure CppExn : Type where
  kind : ExnKind
  msg : String
deriving DecidableEq, Repr

/-- `throw std::invalid_argument("Invalid slice format")` in `Range::parseRange`. -/
def invalidSliceFormat : CppExn := ⟨.invalidArgument, "Invalid slice format"⟩

/-- `throw std::invalid_argument("Too many slices")` in `Inner<Dtype,dim>::operator[]`. -/
def tooManySlicesErr : CppExn := ⟨.invalidArgument, "Too many slices"⟩

/-- `throw std::out_of_range("Index out of range")` in `BaseVector::at`
(the branch for a negative index that stays negative after normalization). -/
def negIdxOutOfRange : CppExn := ⟨.outOfRange, "Index out of range"⟩

/-- The `std::out_of_range` thrown by `std::vector::at` when the index is
`≥ size()` (its exact message text is implementation-defined). -/
def vecAtOutOfRange : CppExn := ⟨.outOfRange, "vector::at out of range"⟩

/-- The `std::out_of_range` thrown by `std::stoi` when the literal does not
fit in `int` (its exact message text is implementation-defined). -/
def stoiOutOfRange : CppExn := ⟨.outOfRange, "stoi out of range"⟩

/-- `pp::Range` (ndarray-11.hpp:56-112): a parsed slice expression. -/
structure Range : Type where
  start : Int
  stop : Int
  step : Int
  has_stop : Bool
deriving DecidableEq, Repr

/-- The default constructor `Range() : start(0), stop(0), step(1), has_stop(false)`,
used by `std::array<Range, dim>` for slots no expression was supplied for. -/
instance : Inhabited Range := ⟨⟨0, 0, 1, false⟩⟩

/-- A character matched by the regex class `\s` (C++ `char` type, "C" locale):
space, `\t`, `\n`, `\v`, `\f`, `\r`. -/
def isWsChar (c : Char) : Bool :=
  c = ' ' || c = '\t' || c = '\n' || c = '\x0b' || c = '\x0c' || c = '\r'

/-- A character matched by the regex class `\d`. -/
def isDigitChar (c : Char) : Bool :=
  '0' ≤ c && c ≤ '9'

/-- Remove leading and trailing `\s` characters; what the surrounding
`\s* … \s*` of each capture field of the two slice regexes consumes. -/
def stripWs (l : List Char) : List Char :=
  ((l.dropWhile isWsChar).reverse.dropWhile isWsChar).reverse

/-- Decimal value of a digit string. -/
def readNat (l : List Char) : Nat :=
  l.foldl (fun acc c => 10 * acc + (c.toNat - '0'.toNat)) 0

/-- Exact match of the regex fragment `-?\d+` (an optional minus sign
followed by at least one digit), with its numeric value. -/
def readIntLit : List Char → Option Int
  | [] => none
  | '-' :: rest =>
    if !rest.isEmpty && rest.all isDigitChar then some (-(readNat rest : Int)) else none
  | l =>
    if l.all isDigitChar then some ((readNat l : Int)) else none

/-- One capture field `\s*(-?\d+)?\s*` of the slice regexes, applied to the
text between two separators: `some none` when the capture group is empty,
`some (some v)` when it captured the literal of value `v`, `none` when the
field (hence the whole regex) does not match.  Because `\s`, `\d`, `-` and
the separators `:`/`,` are disjoint character classes, the regexes of
`parseRange` match exactly when every `:`-separated field matches this. -/
def fieldVal (l : List Char) : Option (Option Int) :=
  match stripWs l with
  | [] => some none
  | m =>
    match readIntLit m with
    | some v => some (some v)
    | none => none

/-- Split a character list at every occurrence of the separator `c`
(`n` separators yield `n + 1` parts, empty parts kept). -/
def splitOnChar (c : Char) : List Char → List (List Char)
  | [] => [[]]
  | x :: xs =>
    match splitOnChar c xs with
    | [] => [[x]]
    | h :: t => if x = c then [] :: h :: t else (x :: h) :: t

/-- `std::stoi` applied to an optional captured literal: a missing capture
yields the source's ternary default `dflt`; a captured value outside the
C++ `int` range throws `std::out_of_range`. -/
def stoiCapture (cap : Option Int) (dflt : Int) : Except CppExn Int :=
  match cap with
  | none => .ok dflt
  | some v =>
    if v < -(2 ^ 31) ∨ (2 ^ 31 - 1) < v then .error stoiOutOfRange else .ok v

/-- `Range::parseRange` (ndarray-11.hpp:80-111).  The text is matched first
against `^\s*(-?\d+)?\s*:\s*(-?\d+)?\s*:\s*(-?\d+)?\s*$` (three fields, two
colons), then against `^\s*(-?\d+)?\s*:\s*(-?\d+)?\s*$` (two fields, one
colon); since `:` can occur in no field, this is dispatch on the number of
`:`-separated parts.  Missing start/stop default to `0`, missing step to
`1`; `has_stop` records whether the stop capture was non-empty; anything
else throws `std::invalid_argument("Invalid slice format")`. -/
def parseRange (str : List Char) : Except CppExn Range :=
  match splitOnChar ':' str with
  | [f1, f2, f3] =>
    match fieldVal f1, fieldVal f2, fieldVal f3 with
    | some a, some b, some c =>
      (stoiCapture a 0).bind fun sta =>
      (stoiCapture b 0).bind fun sto =>
      (stoiCapture c 1).bind fun ste =>
      .ok ⟨sta, sto, ste, b.isSome⟩
    | _, _, _ => .error invalidSliceFormat
  | [f1, f2] =>
    match fieldVal f1, fieldVal f2 with
    | some a, some b =>
      (stoiCapture a 0).bind fun sta =>
      (stoiCapture b 0).bind fun sto =>
      .ok ⟨sta, sto, 1, b.isSome⟩
    | _, _ => .error invalidSliceFormat
  | _ => .error invalidSliceFormat

/-- Whether the text matches one of the two slice grammars
`start? ":" stop? ":" step?` / `start? ":" stop?` of spec §4.1/§6
(optional signed integer literals, whitespace tolerated around tokens). -/
def matchesGrammar (str : List Char) : Bool :=
  match splitOnChar ':' str with
  | [f1, f2, f3] => (fieldVal f1).isSome && (fieldVal f2).isSome && (fieldVal f3).isSome
  | [f1, f2] => (fieldVal f1).isSome && (fieldVal f2).isSome
  | _ => false

/-- `BaseVector::at` (ndarray-11.hpp:157-175): a negative index is
normalized by adding the length; if still negative,
`std::out_of_range("Index out of range")` is thrown; otherwise the call
delegates to `std::vector::at`, which throws `std::out_of_range` when the
index is `≥ size()`. -/
def bvAt {α : Type} (l : List α) (idx : Int) : Except CppExn α :=
  let j := if idx < 0 then idx + l.length else idx
  if j < 0 then .error negIdxOutOfRange
  else if h : j.toNat < l.length then .ok (l.get ⟨j.toNat, h⟩)
  else .error vecAtOutOfRange

/-- The conversion of a C++ `int` value to `std::size_t` (LP64: 64-bit,
unsigned): the value modulo `2^64`, as performed when a signed `int` is
assigned to the `std::size_t stop` variable of `Inner::slice` and when the
loop counter `int i` is compared against it with `i < stop`. -/
def usize (i : Int) : Nat := (i % (2 ^ 64 : Int)).toNat

/-- `pp::Inner<Dtype, dim>` as nested lists: `NdInner α r` is the rank-`r`
array (`Inner<Dtype,1>` is a `std::vector<Dtype>`, `Inner<Dtype,dim>` a
`std::vector<Inner<Dtype,dim-1>>`); `NdInner α 0` stands for the scalar
element type itself. -/
@[reducible] def NdInner (α : Type) : Nat → Type
  | 0 => α
  | d + 1 => List (NdInner α d)

/-- The `for(int i = r.start; i < stop; i += r.step)` loop body shared by
both `slice` specializations (ndarray-11.hpp:283-286 and 334-337): starting
at `i = start`, while `(std::size_t) i < stopN` holds, evaluate the element
expression `g i` (which may throw) and append its result, then advance `i`
by `step`.  `fuel` bounds the number of iterations modelled; the C++ loop
has no such bound (with `step = 0` it never terminates), and every theorem
below supplies fuel beyond what its loop consumes. -/
def sliceGo {β : Type} (g : Int → Except CppExn β) (stopN : Nat) (step : Int) :
    Nat → Int → Except CppExn (List β)
  | 0, _ => .ok []
  | f + 1, i =>
    if usize i < stopN then
      (g i).bind fun x =>
      (sliceGo g stopN step f (i + step)).bind fun rest =>
      .ok (x :: rest)
    else .ok []

/-- `Inner<Dtype,dim>::slice` (ndarray-11.hpp:273-289, case `d + 1`) and
`Inner<Dtype,1>::slice` (ndarray-11.hpp:324-340, case `0`); the modelled
rank is `d + 1`.  If `s = e` the current sub-array is returned unchanged;
otherwise `r` is `slices[s]`, the limit is `r.stop` converted to
`std::size_t` when `has_stop` and the current length otherwise, and the
loop appends `at(i)` (rank 1) or `at(i).slice(slices, s+1, e)` (higher
rank) for each visited `i`. -/
def ndSlice {α : Type} (fuel : Nat) :
    (d : Nat) → NdInner α (d + 1) → List Range → Nat → Nat → Except CppExn (NdInner α (d + 1))
  | 0, a, slices, s, e =>
    if s = e then .ok a
    else
      let r := slices.getD s default
      sliceGo (fun i => bvAt a i)
        (if r.has_stop then usize r.stop else List.length a) r.step fuel r.start
  | d + 1, a, slices, s, e =>
    if s = e then .ok a
    else
      let r := slices.getD s default
      sliceGo (fun i => (bvAt a i).bind fun c => ndSlice fuel d c slices (s + 1) e)
        (if r.has_stop then usize r.stop else List.length a) r.step fuel r.start

/-- The token split performed by `Inner<Dtype,dim>::operator[]`
(ndarray-11.hpp:262-263): `std::sregex_token_iterator` over the separator
`\s*,\s*` with index `-1`.  The iterator yields the part before each
separator match (even when that part is empty) and the final suffix only
when it is non-empty; when the separator matches nowhere it yields the
whole input as a single token, even for the empty string.  Each separator
match contains exactly one comma, and its greedy `\s*` consumes all
whitespace adjacent to that comma, so the final suffix is empty exactly
when the text after the last comma is all whitespace: the model splits at
the bare commas and drops the last part when it is all-whitespace (and
only then).  The boundary whitespace kept inside the model's tokens is
consumed by the separator in C++; the difference is invisible to
`parseRange`, whose fields tolerate surrounding whitespace. -/
def tokenize (s : List Char) : List (List Char) :=
  match splitOnChar ',' s with
  | [t] => [t]
  | ts => if ((ts.getLastD []).dropWhile isWsChar).isEmpty then ts.dropLast else ts

/-- The token loop of `Inner<Dtype,dim>::operator[]` (ndarray-11.hpp:264-267):
for the token at position `i`, first throw
`std::invalid_argument("Too many slices")` when `i ≥ dim`, otherwise parse
the token (which may itself throw) and store the range. -/
def collectRanges (dim : Nat) : List (List Char) → Nat → Except CppExn (List Range)
  | [], _ => .ok []
  | t :: ts, i =>
    if dim ≤ i then .error tooManySlicesErr
    else
      (parseRange t).bind fun r =>
      (collectRanges dim ts (i + 1)).bind fun rs =>
      .ok (r :: rs)

/-- `Inner<Dtype,dim>::operator[](const std::string&)` for the primary
template, `dim = d + 2 ≥ 2` (ndarray-11.hpp:255-270): split the input into
comma tokens, parse them (throwing on a malformed token or on more tokens
than `dim`), then call `slice(slices, 0, i)` where `i` is the number of
tokens parsed.  (The `dim = 1` specialization, ndarray-11.hpp:313-322,
never splits: it parses the whole input as a single range; as written its
final call `slice(slices)` lacks the `start`/`end` arguments and does not
compile when used.) -/
def bracket {α : Type} (fuel : Nat) (d : Nat) (a : NdInner α (d + 2)) (input : List Char) :
    Except CppExn (NdInner α (d + 2)) :=
  (collectRanges (d + 2) (tokenize input) 0).bind fun rs =>
  ndSlice fuel (d + 1) a rs 0 rs.length

/-- Modelled from the spec (§4.4): the list of index values `i` visited by
"iterating `i` from `r.start`, incrementing by `r.step` each time, while
`i < limit`", with the amendment of claim C1 that the comparison is the
C++ one, performed after conversion of `i` to `std::size_t`. -/
def loopIdx (limit : Nat) (step : Int) : Nat → Int → List Int
  | 0, _ => []
  | f + 1, i => if usize i < limit then i :: loopIdx limit step f (i + step) else []

/-- Modelled from the spec (§4.4): the recursive
`select(ranges, axisIndex, axisCount)` procedure, with the amendment of
claim C1 that `i < limit` is compared in `std::size_t`.  When
`axisIndex = axisCount` the current sub-array is returned unchanged and
whole; otherwise `limit` is `r.stop` (converted to the unsigned size type)
when `r.has_stop` and the current axis length otherwise — `limit` is not
negative-index-normalized — and the visited indices are each selected via
the §4.2 accessor (negative-index-normalized) and recursively sliced. -/
def select {α : Type} (fuel : Nat) :
    (d : Nat) → NdInner α (d + 1) → List Range → Nat → Nat → Except CppExn (NdInner α (d + 1))
  | 0, a, ranges, axisIndex, axisCount =>
    if axisIndex = axisCount then .ok a
    else
      let r := ranges.getD axisIndex default
      let limit := if r.has_stop then usize r.stop else List.length a
      (loopIdx limit r.step fuel r.start).mapM fun i => bvAt a i
  | d + 1, a, ranges, axisIndex, axisCount =>
    if axisIndex = axisCount then .ok a
    else
      let r := ranges.getD axisIndex default
      let limit := if r.has_stop then usize r.stop else List.length a
      (loopIdx limit r.step fuel r.start).mapM fun i =>
        (bvAt a i).bind fun c => select fuel d c ranges (axisIndex + 1) axisCount

/-- The loop indices as claim C1 literally states them: "iterating `i` from
`start`, incrementing by `step`, while `i < limit`" — a signed integer
comparison. -/
def loopIdxSigned (limit : Int) (step : Int) : Nat → Int → List Int
  | 0, _ => []
  | f + 1, i => if i < limit then i :: loopIdxSigned limit step f (i + step) else []

/-- The `select` procedure exactly as claim C1 states it: `limit` is
`r.stop` itself when `has_stop` (not negative-index-normalized) and the
current axis length otherwise, and the loop runs while `i < limit` as a
signed comparison; each visited element is accessed at the
negative-index-normalized index `i` and recursively selected. -/
def selectSigned {α : Type} (fuel : Nat) :
    (d : Nat) → NdInner α (d + 1) → List Range → Nat → Nat → Except CppExn (NdInner α (d + 1))
  | 0, a, ranges, axisIndex, axisCount =>
    if axisIndex = axisCount then .ok a
    else
      let r := ranges.getD axisIndex default
      let limit : Int := if r.has_stop then r.stop else (List.length a : Int)
      (loopIdxSigned limit r.step fuel r.start).mapM fun i => bvAt a i
  | d + 1, a, ranges, axisIndex, axisCount =>
    if axisIndex = axisCount then .ok a
    else
      let r := ranges.getD axisIndex default
      let limit : Int := if r.has_stop then r.stop else (List.length a : Int)
      (loopIdxSigned limit r.step fuel r.start).mapM fun i =>
        (bvAt a i).bind fun c => selectSigned fuel d c ranges (axisIndex + 1) axisCount

/-- The converting constructor `Inner<Dtype,dim>::Inner(const Inner<T,M>&)`
for `M < dim` (ndarray-11.hpp:208-212), iterated over the rank gap
`dim - M`: each application wraps the lower-rank array as the single
element of a one-longer-rank array (`push_back(Inner<T, dim-1>(lower))`,
where the inner conversion is the copy constructor once the ranks meet). -/
def rankLift {α : Type} {m : Nat} : (gap : Nat) → NdInner α m → NdInner α (m + gap)
  | 0, a => a
  | g + 1, a => [rankLift g a]

deriving instance DecidableEq for Except

/-- The captured value fits the C++ `int` range (so `std::stoi` does not
throw); vacuously true for a missing capture. -/
def intOkB : Option Int → Bool
  | none => true
  | some v => decide (-(2 ^ 31) ≤ v) && decide (v ≤ 2 ^ 31 - 1)

lemma exbind_ok {α β : Type} (x : α) (f : α → Except CppExn β) :
    (Except.ok x).bind f = f x := rfl

lemma exbind_err {α β : Type} (e : CppExn) (f : α → Except CppExn β) :
    (Except.error e).bind f = (.error e : Except CppExn β) := rfl

lemma stoiCapture_ok (o : Option Int) (dflt : Int) (h : intOkB o = true) :
    stoiCapture o dflt = .ok (o.getD dflt) := by
  cases o with
  | none => rfl
  | some v =>
    simp only [intOkB, Bool.and_eq_true, decide_eq_true_eq] at h
    simp only [stoiCapture, Option.getD_some]
    rw [if_neg (by omega)]

lemma stoiCapture_cases (o : Option Int) (dflt : Int) :
    stoiCapture o dflt = .ok (o.getD dflt) ∨ stoiCapture o dflt = .error stoiOutOfRange := by
  cases o with
  | none => exact .inl rfl
  | some v =>
    simp only [stoiCapture, Option.getD_some]
    by_cases h : v < -(2 ^ 31) ∨ (2 ^ 31 - 1) < v
    · exact .inr (if_pos h)
    · exact .inl (if_neg h)

lemma bvAt_nat {α : Type} (l : List α) (j : Nat) (h : j < l.length) :
    bvAt l (j : Int) = .ok (l.get ⟨j, h⟩) := by
  have h0 : ¬ ((j : Int) < 0) := by omega
  simp only [bvAt, if_neg h0]
  rw [dif_pos (by simpa using h)]
  simp

lemma bvAt_ge {α : Type} (l : List α) (j : Int) (h0 : 0 ≤ j) (h : (l.length : Int) ≤ j) :
    bvAt l j = .error vecAtOutOfRange := by
  have hn : ¬ (j < 0) := by omega
  simp only [bvAt, if_neg hn]
  rw [dif_neg (by omega)]

lemma sliceGo_eq_mapM {β : Type} (g : Int → Except CppExn β) (stopN : Nat) (step : Int) :
    ∀ (f : Nat) (i : Int), sliceGo g stopN step f i = (loopIdx stopN step f i).mapM g := by
  intro f
  induction f with
  | zero => intro i; rfl
  | succ f ih =>
    intro i
    simp only [sliceGo, loopIdx]
    by_cases hc : usize i < stopN
    · rw [if_pos hc, if_pos hc, List.mapM_cons, ih]
      rfl
    · rw [if_neg hc, if_neg hc]
      rfl

lemma ndSlice_refl {α : Type} (fuel d : Nat) (a : NdInner α (d + 1))
    (slices : List Range) (s : Nat) :
    ndSlice fuel d a slices s s = .ok a := by
  cases d <;> simp [ndSlice]

/-- C1: the recursive slice procedure of the source coincides with the
spec's `select(ranges, axisIndex, axisCount)` at every level and for every
input, once the spec's loop guard "while `i < limit`" is amended to the
comparison the source performs, namely after conversion of both operands
to `std::size_t`: when `axisIndex = axisCount` the current sub-array is
returned unchanged and whole; otherwise `limit` is the raw (not
negative-index-normalized) stop when `has_stop` and the current axis
length otherwise, and each visited `i` selects the child at
negative-index-normalized index `i`, recursively sliced. -/
theorem c1_slice_equals_select_amended :
    ∀ (α : Type) (fuel d : Nat) (a : NdInner α (d + 1)) (ranges : List Range) (s e : Nat),
      ndSlice fuel d a ranges s e = select fuel d a ranges s e := by
  intro α fuel d
  induction d with
  | zero =>
    intro a ranges s e
    by_cases hse : s = e
    · subst hse; simp [ndSlice, select]
    · simp only [ndSlice, select, if_neg hse]
      exact sliceGo_eq_mapM _ _ _ _ _
  | succ d ih =>
    intro a ranges s e
    by_cases hse : s = e
    · subst hse; simp [ndSlice, select]
    · simp only [ndSlice, select, if_neg hse]
      rw [sliceGo_eq_mapM]
      congr 1
      funext i
      congr 1
      funext c
      exact ih c ranges (s + 1) e

/-- C1 (counterexample): on the rank-1 array `[10, 20]` with the parsed
range of `"-1:2"` (start `-1`, stop `2`, step `1`), the source's slice
yields the empty array (the signed start compares as a huge unsigned
value), while the procedure exactly as the claim states it — signed
`i < limit` with per-element negative-index normalization — would yield
`[20, 10, 20]`; so the claim's description of the loop guard is false of
the code. -/
theorem c1_counterexample :
    ndSlice 8 0 ([10, 20] : NdInner Int 1) [⟨-1, 2, 1, true⟩] 0 1 = .ok [] ∧
    selectSigned 8 0 ([10, 20] : NdInner Int 1) [⟨-1, 2, 1, true⟩] 0 1 = .ok [20, 10, 20] ∧
    (Except.ok ([] : NdInner Int 1) : Except CppExn (NdInner Int 1)) ≠ .ok [20, 10, 20] := by
  refine ⟨by decide, by decide, by decide⟩

/-- C7: rank lift.  Wrapping a lower-rank array (the converting
constructor, iterated over the rank gap) always produces an array whose
outer axis has length 1, whose sole element is the one-rank-lower lift;
in particular a rank-2 array built from a rank-1 array `b` is `[b]`: outer
length 1 and sole element structurally equal to `b` unchanged. -/
theorem c7_rank_lift :
    (∀ (α : Type) (m g : Nat) (a : NdInner α m),
        List.length (rankLift (g + 1) a) = 1 ∧ rankLift (g + 1) a = [rankLift g a]) ∧
    (∀ (α : Type) (b : NdInner α 1), rankLift (m := 1) 1 b = [b]) :=
  ⟨fun _ _ _ _ => ⟨rfl, rfl⟩, fun _ _ => rfl⟩

/-- C10: `FormatError` (the parser's "Invalid slice format") and
`TooManySlices` ("Too many slices") are both thrown as
`std::invalid_argument` and differ only in their message strings, while
the out-of-range failures of `at` are the distinct type
`std::out_of_range`; a caller catching by type alone cannot tell a
malformed slice string from an over-supplied slice list. -/
theorem c10_exception_kinds :
    parseRange "abc".toList = .error invalidSliceFormat ∧
    bracket 5 0 ([[1], [2]] : NdInner Int 2) ("0:1,0:1,0:1".toList) = .error tooManySlicesErr ∧
    invalidSliceFormat.kind = ExnKind.invalidArgument ∧
    tooManySlicesErr.kind = ExnKind.invalidArgument ∧
    invalidSliceFormat ≠ tooManySlicesErr ∧
    invalidSliceFormat.msg ≠ tooManySlicesErr.msg ∧
    bvAt ([1, 2, 3] : List Int) 5 = .error vecAtOutOfRange ∧
    vecAtOutOfRange.kind = ExnKind.outOfRange ∧
    negIdxOutOfRange.kind = ExnKind.outOfRange ∧
    ExnKind.invalidArgument ≠ ExnKind.outOfRange := by
  refine ⟨by decide, by decide, rfl, rfl, by decide, by decide, by decide, rfl, rfl, by decide⟩

lemma stoiErr_ne : stoiOutOfRange ≠ invalidSliceFormat := by decide

/-- C4: `at(i)` (and hence call-style indexing, which delegates to it at
every rank) normalizes a negative `i` to `i + length`, fails with
OutOfRange when the sum is still negative, and otherwise fails with
OutOfRange exactly when the (normalized) index is `≥ length`; hence
`A(-1) = A(length - 1)` for non-empty `A`, and `A(-(length+1))` fails with
OutOfRange. -/
theorem c4_at_negative_index :
    ∀ (α : Type) (l : List α),
      (∀ i : Int, i < 0 → 0 ≤ i + l.length → bvAt l i = bvAt l (i + l.length)) ∧
      (∀ i : Int, i + l.length < 0 → bvAt l i = .error negIdxOutOfRange) ∧
      (∀ i : Int, 0 ≤ i → (bvAt l i = .error vecAtOutOfRange ↔ (l.length : Int) ≤ i)) ∧
      (0 < l.length → bvAt l (-1) = bvAt l ((l.length : Int) - 1)) ∧
      bvAt l (-((l.length : Int) + 1)) = .error negIdxOutOfRange := by
  intro α l
  have hA : ∀ i : Int, i < 0 → 0 ≤ i + l.length → bvAt l i = bvAt l (i + l.length) := by
    intro i hi hnn
    have hsel : (if i < 0 then i + (l.length : Int) else i) =
        (if i + (l.length : Int) < 0 then i + (l.length : Int) + l.length
         else i + (l.length : Int)) := by
      split_ifs <;> omega
    simp only [bvAt]
    rw [hsel]
  have hB : ∀ i : Int, i + l.length < 0 → bvAt l i = .error negIdxOutOfRange := by
    intro i h
    have hi : i < 0 := by omega
    simp only [bvAt]
    rw [if_pos hi, if_pos h]
  refine ⟨hA, hB, ?_, ?_, hB _ (by omega)⟩
  · intro i hi
    have hn : ¬ (i < 0) := by omega
    simp only [bvAt, if_neg hn]
    by_cases h : i.toNat < l.length
    · rw [dif_pos h]
      constructor
      · intro hx; simp at hx
      · intro hx; exfalso; omega
    · rw [dif_neg h]
      constructor
      · intro _; omega
      · intro _; rfl
  · intro hpos
    have h := hA (-1) (by omega) (by omega)
    have he : (-1 + (l.length : Int)) = ((l.length : Int) - 1) := by omega
    rw [he] at h
    exact h

/-- C4 (witness): on `[10, 20, 30]`, index `-1` reads the same element as
index `length - 1 = 2`, and index `-4 = -(length + 1)` fails with
OutOfRange. -/
theorem c4_witness :
    bvAt ([10, 20, 30] : List Int) (-1) = bvAt ([10, 20, 30] : List Int) ((3 : Int) - 1) ∧
    bvAt ([10, 20, 30] : List Int) (-4) = .error negIdxOutOfRange := by
  refine ⟨?_, ?_⟩
  · exact (c4_at_negative_index Int [10, 20, 30]).2.2.2.1 (by decide)
  · exact (c4_at_negative_index Int [10, 20, 30]).2.1 (-4) (by decide)

/-- C5: the Range parser fills defaults as specified for every text
matching the grammar — missing start becomes `0`, missing stop sets
`has_stop = false`, missing step in the three-field form becomes `1`, and
the two-field form always sets step `1` — and on the spec's examples
`parse("1:5:2") = {1, 5, 2, has_stop}`, `parse(":5") = {0, 5, 1, has_stop}`
and `parse("1:") = {start 1, step 1, no stop}`. -/
theorem c5_parse_defaults :
    (∀ (s f1 f2 f3 : List Char) (a b c : Option Int),
        splitOnChar ':' s = [f1, f2, f3] →
        fieldVal f1 = some a → fieldVal f2 = some b → fieldVal f3 = some c →
        intOkB a = true → intOkB b = true → intOkB c = true →
        parseRange s = .ok ⟨a.getD 0, b.getD 0, c.getD 1, b.isSome⟩) ∧
    (∀ (s f1 f2 : List Char) (a b : Option Int),
        splitOnChar ':' s = [f1, f2] →
        fieldVal f1 = some a → fieldVal f2 = some b →
        intOkB a = true → intOkB b = true →
        parseRange s = .ok ⟨a.getD 0, b.getD 0, 1, b.isSome⟩) ∧
    parseRange "1:5:2".toList = .ok ⟨1, 5, 2, true⟩ ∧
    parseRange ":5".toList = .ok ⟨0, 5, 1, true⟩ ∧
    parseRange "1:".toList = .ok ⟨1, 0, 1, false⟩ := by
  refine ⟨?_, ?_, by decide, by decide, by decide⟩
  · intro s f1 f2 f3 a b c hsplit h1 h2 h3 ia ib ic
    simp only [parseRange, hsplit, h1, h2, h3,
      stoiCapture_ok _ _ ia, stoiCapture_ok _ _ ib, stoiCapture_ok _ _ ic, exbind_ok]
  · intro s f1 f2 a b hsplit h1 h2 ia ib
    simp only [parseRange, hsplit, h1, h2,
      stoiCapture_ok _ _ ia, stoiCapture_ok _ _ ib, exbind_ok]

/-- C5 (witness): the general three-field conclusion applied to the
whitespace-padded text `" 7 :: -3 "`, whose stop field is empty. -/
theorem c5_witness :
    parseRange " 7 :: -3 ".toList = .ok ⟨7, 0, -3, false⟩ := by
  have h := c5_parse_defaults.1 (" 7 :: -3 ".toList) (" 7 ".toList) [] (" -3 ".toList)
      (some 7) none (some (-3)) (by decide) (by decide) (by decide) (by decide)
      (by decide) (by decide) (by decide)
  simpa using h

/-- C6: `parse(text)` fails with FormatError exactly when `text` matches
neither grammar `start? ":" stop? ":" step?` nor `start? ":" stop?`; in
particular the bare integer `"3"` and `"abc"` fail with FormatError, while
a zero step, as in `"1:5:0"`, is accepted by the parser. -/
theorem c6_format_error_iff :
    (∀ s : List Char, parseRange s = .error invalidSliceFormat ↔ matchesGrammar s = false) ∧
    parseRange "3".toList = .error invalidSliceFormat ∧
    parseRange "abc".toList = .error invalidSliceFormat ∧
    parseRange "1:5:0".toList = .ok ⟨1, 5, 0, true⟩ := by
  refine ⟨?_, by decide, by decide, by decide⟩
  intro s
  rcases hs : splitOnChar ':' s with _ | ⟨f1, _ | ⟨f2, _ | ⟨f3, _ | ⟨f4, rest⟩⟩⟩⟩ <;>
    simp only [parseRange, matchesGrammar, hs] <;> try simp
  · rcases h1 : fieldVal f1 with _ | a <;> rcases h2 : fieldVal f2 with _ | b <;>
      simp [h1, h2]
    rcases stoiCapture_cases a 0 with ha | ha <;> rcases stoiCapture_cases b 0 with hb | hb <;>
      simp [ha, hb, exbind_ok, exbind_err, stoiErr_ne]
  · rcases h1 : fieldVal f1 with _ | a <;> rcases h2 : fieldVal f2 with _ | b <;>
      rcases h3 : fieldVal f3 with _ | c <;> simp [h1, h2, h3]
    rcases stoiCapture_cases a 0 with ha | ha <;> rcases stoiCapture_cases b 0 with hb | hb <;>
      rcases stoiCapture_cases c 1 with hc | hc <;>
      simp [ha, hb, hc, exbind_ok, exbind_err, stoiErr_ne]

lemma bvAt_ok_of {α : Type} (l : List α) (j : Int) (h0 : 0 ≤ j) (hj : j < (l.length : Int)) :
    ∃ y, bvAt l j = .ok y := by
  have hjt : j.toNat < l.length := by omega
  have hcast : ((j.toNat : Nat) : Int) = j := Int.toNat_of_nonneg h0
  refine ⟨l.get ⟨j.toNat, hjt⟩, ?_⟩
  conv_lhs => rw [← hcast]
  exact bvAt_nat l j.toNat hjt

lemma sliceGo_full {β : Type} (l : List β) (g : Int → Except CppExn β)
    (hg : ∀ (j : Nat) (h : j < l.length), g (j : Int) = .ok (l.get ⟨j, h⟩))
    (hlen : l.length < 2 ^ 64) :
    ∀ (f : Nat) (k : Nat), l.length ≤ k + f → k ≤ l.length →
      sliceGo g l.length 1 f (k : Int) = .ok (l.drop k) := by
  intro f
  induction f with
  | zero =>
    intro k hkf hk
    have hkl : k = l.length := by omega
    subst hkl
    simp [sliceGo, List.drop_length]
  | succ f ih =>
    intro k hkf hk
    by_cases hkl : k < l.length
    · have hc : usize (k : Int) < l.length := by
        simp only [usize]
        omega
      rw [sliceGo, if_pos hc, hg k hkl]
      simp only [exbind_ok]
      have hcast : ((k : Int) + 1) = ((k + 1 : Nat) : Int) := by push_cast; ring
      rw [hcast, ih (k + 1) (by omega) (by omega)]
      simp only [exbind_ok]
      rw [List.drop_eq_getElem_cons hkl]
      rfl
    · have hkl2 : k = l.length := by omega
      have hc : ¬ (usize (k : Int) < l.length) := by
        simp only [usize]
        omega
      rw [sliceGo, if_neg hc, hkl2, List.drop_length]

lemma sliceGo_oor {β : Type} (g : Int → Except CppExn β) (n stopN : Nat) (step : Int)
    (hgerr : ∀ j : Int, 0 ≤ j → (n : Int) ≤ j → g j = .error vecAtOutOfRange)
    (hgok : ∀ j : Int, 0 ≤ j → j < (n : Int) → ∃ y, g j = .ok y)
    (hstep : 1 ≤ step) (hstopN : 2 ^ 64 - 2 ^ 31 ≤ stopN) :
    ∀ (f : Nat) (i : Int), 0 ≤ i → (n : Int) ≤ i + (f : Int) * step →
      i + ((f : Int) + 1) * step < 2 ^ 63 →
      sliceGo g stopN step (f + 1) i = .error vecAtOutOfRange := by
  intro f
  induction f with
  | zero =>
    intro i h0 hreach hbound
    simp only [Nat.cast_zero, zero_mul, add_zero, zero_add, one_mul] at hreach hbound
    have hc : usize i < stopN := by
      simp only [usize]
      omega
    rw [sliceGo, if_pos hc, hgerr i h0 hreach]
    rfl
  | succ f ih =>
    intro i h0 hreach hbound
    push_cast at hreach hbound
    have hpos : (0 : Int) ≤ ((f : Int) + 1 + 1) * step :=
      mul_nonneg (by omega) (by omega)
    have hi63 : i < 2 ^ 63 := by linarith
    have hc : usize i < stopN := by
      simp only [usize]
      omega
    by_cases hni : (n : Int) ≤ i
    · rw [sliceGo, if_pos hc, hgerr i h0 hni]
      rfl
    · obtain ⟨y, hy⟩ := hgok i h0 (by omega)
      rw [sliceGo, if_pos hc, hy]
      simp only [exbind_ok]
      have hexp1 : i + ((f : Int) + 1) * step = (i + step) + (f : Int) * step := by ring
      have hexp2 : i + ((f : Int) + 1 + 1) * step = (i + step) + ((f : Int) + 1) * step := by ring
      rw [ih (i + step) (by omega) (by linarith) (by linarith)]
      rfl

lemma collectRanges_tooMany (dim : Nat) :
    ∀ (toks : List (List Char)) (i : Nat),
      dim - i < toks.length →
      (∀ t ∈ toks.take (dim - i), (parseRange t).isOk = true) →
      collectRanges dim toks i = .error tooManySlicesErr := by
  intro toks
  induction toks with
  | nil =>
    intro i h1 _
    simp at h1
  | cons t ts ih =>
    intro i h1 h2
    by_cases hdi : dim ≤ i
    · simp only [collectRanges, if_pos hdi]
    · have hsub : dim - i = (dim - i - 1) + 1 := by omega
      have htake : (t :: ts).take (dim - i) = t :: ts.take (dim - i - 1) := by
        conv_lhs => rw [hsub]
        exact List.take_succ_cons
      have hok : (parseRange t).isOk = true := by
        apply h2
        rw [htake]
        exact List.mem_cons_self t _
      obtain ⟨r, hrr⟩ : ∃ r, parseRange t = .ok r := by
        cases hpr : parseRange t with
        | ok r => exact ⟨r, rfl⟩
        | error e => rw [hpr] at hok; simp [Except.isOk, Except.toBool] at hok
      simp only [collectRanges, if_neg hdi]
      rw [hrr]
      simp only [exbind_ok]
      rw [ih (i + 1) (by simp at h1 ⊢; omega) ?_]
      · rfl
      · intro t2 ht2
        apply h2
        rw [htake]
        have he : dim - (i + 1) = dim - i - 1 := by omega
        rw [he] at ht2
        exact List.mem_cons_of_mem t ht2

/-- C2 (amended): for arrays of rank at least 2 (the primary template;
the rank-1 specialization never splits on commas, and its bracket
operator as written does not compile when used), bracket-style slicing
splits the spec on commas and — whenever the number of comma-separated
components exceeds the rank and the first `rank` components are
themselves well-formed range expressions — fails with TooManySlices
before any axis is applied, for every array value and every fuel; in
particular, for a rank-2 array `A`, `A["0:1,0:1,0:1"]` fails with
TooManySlices. -/
theorem c2_too_many_slices_amended :
    (∀ (α : Type) (d fuel : Nat) (a : NdInner α (d + 2)) (input : List Char),
        d + 2 < (tokenize input).length →
        (∀ t ∈ (tokenize input).take (d + 2), (parseRange t).isOk = true) →
        bracket fuel d a input = .error tooManySlicesErr) ∧
    bracket 5 0 ([[1], [2]] : NdInner Int 2) ("0:1,0:1,0:1".toList) = .error tooManySlicesErr := by
  refine ⟨?_, by decide⟩
  intro α d fuel a input h1 h2
  unfold bracket
  rw [collectRanges_tooMany (d + 2) (tokenize input) 0 (by simpa using h1) (by simpa using h2)]
  rfl

/-- C2 (counterexample): on the rank-2 array `[[1], [2]]` the spec string
`"abc,0:1,0:1"` has 3 comma-separated components, which exceeds the rank 2,
yet the operation fails with FormatError ("Invalid slice format"), not
TooManySlices: the bound check and the parse are interleaved per token, so
the malformed first component throws before the count check at token 2 is
reached. -/
theorem c2_counterexample :
    bracket 5 0 ([[1], [2]] : NdInner Int 2) ("abc,0:1,0:1".toList) = .error invalidSliceFormat ∧
    (tokenize ("abc,0:1,0:1".toList)).length = 3 ∧
    invalidSliceFormat ≠ tooManySlicesErr := by
  exact ⟨by decide, by decide, by decide⟩

/-- C2 (witness): the general conclusion applied to a rank-2 array and a
three-component spec whose first two components are well-formed. -/
theorem c2_witness :
    bracket 7 0 ([[9], [8]] : NdInner Int 2) ("2:3,4:5,6:7".toList) = .error tooManySlicesErr :=
  c2_too_many_slices_amended.1 Int 0 7 [[9], [8]] ("2:3,4:5,6:7".toList) (by decide) (by decide)

/-- C3: slicing an array of outer length `m` with the full range
`"0:m:1"` (parsed as start 0, stop `m`, step 1) yields a result
element-wise equal to the source at every rank; the result is a newly
built value (every loop iteration pushes a fresh recursive copy, the C++
containers own their elements by value), so mutating one cannot affect
the other.  The second conjunct runs the whole bracket pipeline on a
concrete rank-2 array. -/
theorem c3_full_range_slice_copy :
    (∀ (α : Type) (d fuel : Nat) (a : NdInner α (d + 1)) (slices : List Range)
        (m : Nat) (r : Range),
        slices.getD 0 default = r →
        r.start = 0 → r.stop = (m : Int) → r.step = 1 → r.has_stop = true →
        m = List.length a → m ≤ fuel → m < 2 ^ 63 →
        ndSlice fuel d a slices 0 1 = .ok a) ∧
    bracket 5 0 ([[1, 2], [3, 4]] : NdInner Int 2) ("0:2:1".toList) = .ok [[1, 2], [3, 4]] := by
  refine ⟨?_, by decide⟩
  intro α d fuel a slices m r hr h1 h2 h3 h4 hm hfuel hbig
  subst hm
  have hus : usize ((List.length a : Nat) : Int) = List.length a := by
    simp only [usize]
    omega
  cases d with
  | zero =>
    simp only [ndSlice, if_neg (by decide : (0 : Nat) ≠ 1), hr, h1, h2, h3, h4, if_pos rfl, hus]
    have := sliceGo_full a (fun i => bvAt a i) (fun j h => bvAt_nat a j h) (by omega) fuel 0
      (by omega) (by omega)
    simpa using this
  | succ n =>
    simp only [ndSlice, if_neg (by decide : (0 : Nat) ≠ 1), hr, h1, h2, h3, h4, if_pos rfl, hus]
    have := sliceGo_full a
      (fun i => (bvAt a i).bind fun c => ndSlice fuel n c slices (0 + 1) 1)
      (fun j h => by
        simp only [bvAt_nat a j h, exbind_ok]
        simpa using ndSlice_refl fuel n (a.get ⟨j, h⟩) slices 1)
      (by omega) fuel 0 (by omega) (by omega)
    simpa using this

/-- C3 (witness): the general conclusion on the rank-2 array
`[[1, 2], [3, 4]]` of outer length 2 with the parsed range of `"0:2:1"`. -/
theorem c3_witness :
    ndSlice 4 1 ([[1, 2], [3, 4]] : NdInner Int 2) [⟨0, 2, 1, true⟩] 0 1 = .ok [[1, 2], [3, 4]] :=
  c3_full_range_slice_copy.1 Int 1 4 [[1, 2], [3, 4]] [⟨0, 2, 1, true⟩] 2 ⟨0, 2, 1, true⟩ rfl rfl
    rfl rfl rfl rfl (by decide) (by decide)

/-- C8: in the slice loop the signed counter `i` is compared against the
unsigned `std::size_t` limit, so on any axis whose range has a negative
(`int`-ranged) start and an ordinary non-negative effective limit — an
explicit stop in `[0, 2^31)` when `has_stop`, or an axis length `≤ 2^63`
otherwise — the converted start is a huge unsigned value, the loop body
runs zero times, and that axis of the result is empty: a negative slice
start is never normalized to count from the end. -/
theorem c8_negative_start_empty {α : Type} (d fuel : Nat) (a : NdInner α (d + 1))
    (slices : List Range) (s e : Nat) (r : Range)
    (hr : slices.getD s default = r)
    (hse : s ≠ e)
    (hneg : r.start < 0) (hmin : -(2 ^ 31) ≤ r.start)
    (hstop : r.has_stop = true → 0 ≤ r.stop ∧ r.stop < 2 ^ 31)
    (hlen : r.has_stop = false → List.length a ≤ 2 ^ 63) :
    ndSlice fuel d a slices s e = .ok [] := by
  cases d <;>
  · simp only [ndSlice, if_neg hse, hr]
    cases fuel with
    | zero => rfl
    | succ f =>
      have hc : ¬ (usize r.start < (if r.has_stop then usize r.stop else List.length a)) := by
        cases hhs : r.has_stop with
        | true =>
          obtain ⟨hs1, hs2⟩ := hstop hhs
          rw [if_pos rfl]
          simp only [usize]
          omega
        | false =>
          have hl := hlen hhs
          rw [if_neg (by decide : ¬ (false = true))]
          simp only [usize]
          omega
      simp only [sliceGo, if_neg hc]

/-- C8 (witness): slicing `[1, 2, 3]` with the parsed range of `"-1:2"`
(negative start, non-negative stop) yields the empty array. -/
theorem c8_witness :
    ndSlice 10 0 ([1, 2, 3] : NdInner Int 1) [⟨-1, 2, 1, true⟩] 0 1 = .ok [] :=
  c8_negative_start_empty 0 10 [1, 2, 3] [⟨-1, 2, 1, true⟩] 0 1 ⟨-1, 2, 1, true⟩ rfl (by decide)
    (by decide) (by decide) (by decide) (by decide)

/-- C9: on an axis whose range has `has_stop` with a negative (`int`-ranged)
stop, a non-negative start and a positive step, the stop stored into the
unsigned `std::size_t` limit wraps to a huge value, so with enough fuel the
loop (which would run far past the end of the axis) fails with the
OutOfRange of the per-element `at` call — `std::vector::at` — instead of
selecting elements counted from the end. -/
theorem c9_negative_stop_oor {α : Type} (d fuel : Nat) (a : NdInner α (d + 1))
    (slices : List Range) (r : Range)
    (hr : slices.getD 0 default = r)
    (hhs : r.has_stop = true)
    (hstop1 : -(2 ^ 31) ≤ r.stop) (hstop2 : r.stop < 0)
    (hstart1 : 0 ≤ r.start) (hstart2 : r.start < 2 ^ 31)
    (hstep1 : 1 ≤ r.step) (hstep2 : r.step < 2 ^ 31)
    (hlen : List.length a ≤ 2 ^ 31)
    (hfuel1 : List.length a < fuel) (hfuel2 : fuel ≤ 2 ^ 31) :
    ndSlice fuel d a slices 0 1 = .error vecAtOutOfRange := by
  obtain ⟨f, rfl⟩ : ∃ f, fuel = f + 1 := ⟨fuel - 1, by omega⟩
  have hstopN : 2 ^ 64 - 2 ^ 31 ≤ usize r.stop := by
    simp only [usize]
    omega
  have hreach : (List.length a : Int) ≤ r.start + (f : Int) * r.step := by
    have h1 : (List.length a : Int) ≤ (f : Int) := by
      have := hfuel1
      omega
    have h2 : (f : Int) * 1 ≤ (f : Int) * r.step :=
      mul_le_mul_of_nonneg_left hstep1 (by omega)
    linarith
  have hbound : r.start + ((f : Int) + 1) * r.step < 2 ^ 63 := by
    have h1 : ((f : Int) + 1) * r.step ≤ ((2 : Int) ^ 31) * (2 ^ 31) := by
      apply mul_le_mul (by omega) (by omega) (by omega) (by positivity)
    linarith
  cases d with
  | zero =>
    simp only [ndSlice, if_neg (by decide : (0 : Nat) ≠ 1), hr, if_pos hhs]
    exact sliceGo_oor _ _ _ _
      (fun j h0 hj => bvAt_ge a j h0 hj)
      (fun j h0 hj => bvAt_ok_of a j h0 hj)
      hstep1 hstopN f r.start hstart1 hreach hbound
  | succ n =>
    simp only [ndSlice, if_neg (by decide : (0 : Nat) ≠ 1), hr, if_pos hhs]
    refine sliceGo_oor _ _ _ _ ?_ ?_ hstep1 hstopN f r.start hstart1 hreach hbound
    · intro j h0 hj
      rw [bvAt_ge a j h0 hj]
      rfl
    · intro j h0 hj
      obtain ⟨y, hy⟩ := bvAt_ok_of a j h0 hj
      refine ⟨y, ?_⟩
      rw [hy, exbind_ok, ndSlice_refl]

/-- C9 (witness): slicing `[5, 6]` with the parsed range of `"0:-1"`
fails with the OutOfRange of `std::vector::at`. -/
theorem c9_witness :
    ndSlice 3 0 ([5, 6] : NdInner Int 1) [⟨0, -1, 1, true⟩] 0 1 = .error vecAtOutOfRange :=
  c9_negative_stop_oor 0 3 [5, 6] [⟨0, -1, 1, true⟩] ⟨0, -1, 1, true⟩ rfl rfl (by decide)
    (by decide) (by decide) (by decide) (by decide) (by decide) (by decide) (by decide) (by decide)
